import Mathlib

/-!
Verification of the weavr/meldr merge-conflict engine.

Shallow embedding of the pure merge-logic core:
* `crates/weavr-core/src/parser.rs` — conflict-marker parser,
* `crates/weavr-core/src/resolution.rs` — resolution strategies,
* `crates/weavr-core/src/history.rs` — undo/redo action history,
* `crates/meldr-core/src/session.rs` — merge-session state machine
  (meldr is the earlier name of the same engine; its session module is the
  one provided in the sources).

Text content is modelled as `List Char`; Rust `u32`/`usize` counters are
modelled as `Nat` (the hunk counter grows by one per parsed hunk, so
wrap-around would need inputs of more than 2^32 conflict regions and is not
modelled).
-/

namespace Weavr

/-- A single line of text (no `'\n'` inside, produced by `rustLines`). -/
abbrev Line := List Char

/-- One step of the accumulator used by `rustLines`: the accumulated
line is kept reversed; a `'\r'` immediately before the `'\n'` is stripped,
mirroring Rust `str::lines`. -/
def finishLine (acc : List Char) : Line :=
  match acc with
  | '\r' :: a => a.reverse
  | a => a.reverse

/-- Worker for `rustLines`: `acc` holds the current line reversed. -/
def rustLinesGo (acc : List Char) : List Char → List Line
  | [] => [acc.reverse]
  | '\n' :: rest =>
    match rest with
    | [] => [finishLine acc]
    | _ => finishLine acc :: rustLinesGo [] rest
  | c :: rest => rustLinesGo (c :: acc) rest

/-- Rust `str::lines()`: split at `'\n'` (stripping a preceding `'\r'`),
with the final line ending optional; the empty string has no lines. -/
def rustLines (s : List Char) : List Line :=
  match s with
  | [] => []
  | _ => rustLinesGo [] s

/-- Rust `Vec::join("\n")` on a list of lines. -/
def joinNL : List Line → List Char
  | [] => []
  | [l] => l
  | l :: ls => l ++ '\n' :: joinNL ls

/-- Boolean prefix test on character lists (Rust `str::starts_with`). -/
def startsWith : List Char → List Char → Bool
  | [], _ => true
  | _ :: _, [] => false
  | p :: ps, c :: cs => p = c && startsWith ps cs

/-- Rust `str::ends_with('\n')`. -/
def endsWithNL (s : List Char) : Bool :=
  match s.getLast? with
  | some c => c = '\n'
  | none => false

/-- Rust `str::trim`, used to build dedupe keys
(`char::is_whitespace` is modelled by `Char.isWhitespace`). -/
def rustTrim (s : List Char) : List Char :=
  ((s.dropWhile Char.isWhitespace).reverse.dropWhile Char.isWhitespace).reverse

/-- Decidable equality on `Except`, for evaluating the engine on
concrete inputs. -/
instance {ε α : Type} [DecidableEq ε] [DecidableEq α] :
    DecidableEq (Except ε α) := fun x y => by
  cases x with
  | error a =>
    cases y with
    | error b => exact decidable_of_iff (a = b) (by simp)
    | ok b => exact Decidable.isFalse (by simp)
  | ok a =>
    cases y with
    | error b => exact Decidable.isFalse (by simp)
    | ok b => exact decidable_of_iff (a = b) (by simp)

/-! Section: Data model (weavr-core/src/hunk.rs, resolution.rs, parser.rs) -/

/-- The `HunkId` type (a `u32` newtype in the source, modelled as `Nat`). -/
abbrev HunkId := Nat

/-- Order for the `AcceptBoth` strategy. -/
inductive BothOrder where
  | LeftThenRight
  | RightThenLeft
deriving DecidableEq

/-- Options for the `AcceptBoth` strategy. -/
structure AcceptBothOptions where
  order : BothOrder
  deduplicate : Bool
  trim_whitespace : Bool
deriving DecidableEq

/-- How a resolution was chosen. -/
inductive ResolutionStrategyKind where
  | AcceptLeft
  | AcceptRight
  | AcceptBoth (options : AcceptBothOptions)
  | Manual
  | AstMerged (language : String)
  | AiSuggested (provider : String)
deriving DecidableEq

/-- Source of a resolution. -/
inductive ResolutionSource where
  | User
  | Ai
  | Ast
deriving DecidableEq

/-- Metadata about a resolution (`confidence` is a `u8` percentage). -/
structure ResolutionMetadata where
  source : ResolutionSource
  notes : Option String
  confidence : Option Nat
deriving DecidableEq

/-- Rust `ResolutionMetadata::default()`. -/
def ResolutionMetadata.default : ResolutionMetadata :=
  { source := ResolutionSource.User, notes := none, confidence := none }

/-- An explicit decision applied to a hunk. -/
structure Resolution where
  kind : ResolutionStrategyKind
  content : List Char
  metadata : ResolutionMetadata
deriving DecidableEq

/-- Content within a conflict hunk. -/
structure HunkContent where
  text : List Char
deriving DecidableEq

/-- Context surrounding a conflict hunk (line numbers are 1-indexed). -/
structure HunkContext where
  before : List Line
  after : List Line
  start_line_left : Nat
  start_line_right : Nat
deriving DecidableEq

/-- State of a single hunk. -/
inductive HunkState where
  | Unresolved
  | Proposed (candidates : List Resolution)
  | Resolved (resolution : Resolution)
  | Invalid
deriving DecidableEq

/-- A contiguous region of conflicting content. -/
structure ConflictHunk where
  id : HunkId
  left : HunkContent
  right : HunkContent
  base : Option HunkContent
  context : HunkContext
  state : HunkState
deriving DecidableEq

/-- A segment of a file: clean text or a conflict (index into the hunk list). -/
inductive Segment where
  | Clean (text : List Char)
  | Conflict (hunkIndex : Nat)
deriving DecidableEq

/-- Result of parsing a conflicted file. -/
structure ParsedConflict where
  hunks : List ConflictHunk
  segments : List Segment
deriving DecidableEq

/-- Error parsing conflict markers (meldr-core/src/error.rs). -/
inductive ParseError where
  | InvalidMarkers (reason : String)
  | MalformedContent (reason : String)
deriving DecidableEq

/-! Section: Marker parser (weavr-core/src/parser.rs) -/

/-- Rust `DEFAULT_CONTEXT_LINES`. -/
def DEFAULT_CONTEXT_LINES : Nat := 3

/-- Internal parser state machine states. -/
inductive ParserState where
  | Clean
  | InLeft
  | InBase
  | InRight
deriving DecidableEq

/-- Detected conflict marker type. -/
inductive Marker where
  | Start
  | Base
  | Separator
  | End
deriving DecidableEq

/-- Rust `detect_marker`: a marker must begin the line; `=======` additionally
requires nothing but whitespace after the seven equals signs. -/
def detect_marker (line : Line) : Option Marker :=
  if startsWith ("<<<<<<<").data line then some Marker.Start
  else if startsWith ("|||||||").data line then some Marker.Base
  else if line = ("=======").data ∨
      (startsWith ("=======").data line ∧ (line.drop 7).all Char.isWhitespace) then
    some Marker.Separator
  else if startsWith (">>>>>>>").data line then some Marker.End
  else none

/-- Mutable state of the parsing loop in `parse_conflict_markers`.
Buffers grow at the back, as the Rust `Vec::push` does. -/
structure PState where
  state : ParserState
  segments : List Segment
  hunks : List ConflictHunk
  cleanBuffer : List Line
  leftBuffer : List Line
  baseBuffer : Option (List Line)
  rightBuffer : List Line
  hunkStartLine : Nat
  leftContentStart : Nat
  rightContentStart : Nat
  hunkIdCounter : Nat
deriving DecidableEq

/-- The state at the top of `parse_conflict_markers`. -/
def initPState : PState :=
  { state := ParserState.Clean, segments := [], hunks := []
    cleanBuffer := [], leftBuffer := [], baseBuffer := none, rightBuffer := []
    hunkStartLine := 0, leftContentStart := 0, rightContentStart := 0
    hunkIdCounter := 0 }

/-- Flushing the clean buffer into the segment list
(`if !clean_buffer.is_empty() { segments.push(Segment::Clean(..)) }`). -/
def flushClean (segments : List Segment) (cleanBuffer : List Line) : List Segment :=
  if cleanBuffer.isEmpty then segments
  else segments ++ [Segment.Clean (joinNL cleanBuffer)]

/-- The hunk built at an `End` marker in state `InRight`
(`context.after` is filled in a second pass). -/
def emitHunk (allLines : List Line) (st : PState) : ConflictHunk :=
  let contextStart :=
    if st.hunkStartLine > DEFAULT_CONTEXT_LINES
    then st.hunkStartLine - DEFAULT_CONTEXT_LINES - 1 else 0
  let before := (allLines.drop contextStart).take (st.hunkStartLine - 1 - contextStart)
  { id := st.hunkIdCounter
    left := { text := joinNL st.leftBuffer }
    right := { text := joinNL st.rightBuffer }
    base := st.baseBuffer.map (fun b => { text := joinNL b })
    context := { before := before, after := []
                 start_line_left := st.leftContentStart
                 start_line_right := st.rightContentStart }
    state := HunkState.Unresolved }

/-- One iteration of the parsing loop: the match on
`(detect_marker(line), state)` in `parse_conflict_markers`. -/
def parseStep (allLines : List Line) (lineNum : Nat) (line : Line) (st : PState) :
    Except ParseError PState :=
  let oneIndexed := lineNum + 1
  match detect_marker line, st.state with
  | some Marker.Start, ParserState.Clean =>
    Except.ok { st with
      segments := flushClean st.segments st.cleanBuffer
      cleanBuffer := []
      hunkStartLine := oneIndexed
      leftContentStart := oneIndexed + 1
      state := ParserState.InLeft }
  | some Marker.Start, _ =>
    Except.error (ParseError.InvalidMarkers
      ("nested conflict marker at line " ++ toString oneIndexed))
  | some Marker.Base, ParserState.InLeft =>
    Except.ok { st with baseBuffer := some [], state := ParserState.InBase }
  | some Marker.Base, ParserState.InBase =>
    Except.error (ParseError.InvalidMarkers
      ("duplicate base marker at line " ++ toString oneIndexed))
  | some Marker.Base, _ =>
    Except.error (ParseError.InvalidMarkers
      ("unexpected base marker at line " ++ toString oneIndexed))
  | some Marker.Separator, ParserState.InLeft =>
    Except.ok { st with rightContentStart := oneIndexed + 1, state := ParserState.InRight }
  | some Marker.Separator, ParserState.InBase =>
    Except.ok { st with rightContentStart := oneIndexed + 1, state := ParserState.InRight }
  | some Marker.Separator, ParserState.InRight =>
    Except.error (ParseError.InvalidMarkers
      ("duplicate separator at line " ++ toString oneIndexed))
  | some Marker.Separator, ParserState.Clean =>
    Except.error (ParseError.InvalidMarkers
      ("unexpected separator at line " ++ toString oneIndexed))
  | some Marker.End, ParserState.InRight =>
    Except.ok { st with
      hunks := st.hunks ++ [emitHunk allLines st]
      segments := st.segments ++ [Segment.Conflict st.hunks.length]
      hunkIdCounter := st.hunkIdCounter + 1
      leftBuffer := [], rightBuffer := [], baseBuffer := none
      state := ParserState.Clean }
  | some Marker.End, _ =>
    Except.error (ParseError.InvalidMarkers
      ("unexpected end marker at line " ++ toString oneIndexed))
  | none, ParserState.Clean =>
    Except.ok { st with cleanBuffer := st.cleanBuffer ++ [line] }
  | none, ParserState.InLeft =>
    Except.ok { st with leftBuffer := st.leftBuffer ++ [line] }
  | none, ParserState.InBase =>
    Except.ok { st with baseBuffer := st.baseBuffer.map (fun b => b ++ [line]) }
  | none, ParserState.InRight =>
    Except.ok { st with rightBuffer := st.rightBuffer ++ [line] }

/-- The `for (line_num, line) in lines.iter().enumerate()` loop. -/
def parseLoop (allLines : List Line) : Nat → List Line → PState → Except ParseError PState
  | _, [], st => Except.ok st
  | n, l :: ls, st =>
    match parseStep allLines n l st with
    | Except.error e => Except.error e
    | Except.ok st' => parseLoop allLines (n + 1) ls st'

/-- Rust `fill_after_context`: fills the `after` context of every hunk, taking up
to `DEFAULT_CONTEXT_LINES` lines from the end-marker position, clipped at
file end and at the recorded start of the next hunk. -/
def fill_after_context (hunks : List ConflictHunk) (lines : List Line) :
    List ConflictHunk :=
  let hunkStarts : List Nat := hunks.map (fun h => h.context.start_line_left - 1)
  hunks.enum.map (fun p =>
    let hunkIndex := p.1
    let h := p.2
    let rightStart := h.context.start_line_right
    let rightLineCount := if h.right.text.isEmpty then 0 else (rustLines h.right.text).length
    let endMarkerLine := rightStart + rightLineCount
    let afterStart := endMarkerLine
    let afterEnd := min (afterStart + DEFAULT_CONTEXT_LINES) lines.length
    -- `usize::MAX` when there is no next hunk; `min afterEnd usize::MAX = afterEnd`
    let actualEnd := match hunkStarts[hunkIndex + 1]? with
      | some nextConflictStart => min afterEnd nextConflictStart
      | none => afterEnd
    if afterStart < actualEnd ∧ afterStart < lines.length then
      { h with context := { h.context with
          after := (lines.drop afterStart).take (actualEnd - afterStart) } }
    else h)

/-- Rust `parse_conflict_markers`: split into lines, run the marker state machine,
reject an unclosed conflict at EOF, flush the last clean segment, and fill
the after-context in a second pass. -/
def parse_conflict_markers (content : List Char) : Except ParseError ParsedConflict :=
  let lines := rustLines content
  match parseLoop lines 0 lines initPState with
  | Except.error e => Except.error e
  | Except.ok st =>
    if st.state ≠ ParserState.Clean then
      Except.error (ParseError.InvalidMarkers
        ("unclosed conflict starting at line " ++ toString st.hunkStartLine))
    else
      Except.ok { hunks := fill_after_context st.hunks lines
                  segments := flushClean st.segments st.cleanBuffer }

/-! Section: Resolution strategy engine (weavr-core/src/resolution.rs) -/

/-- Rust `combine_simple`: concatenation with a newline inserted only when the
first piece lacks a trailing one. -/
def combine_simple (first second : List Char) : List Char :=
  if endsWithNL first then first ++ second else first ++ '\n' :: second

/-- The dedupe key of a line: trimmed when `trim_whitespace` is set,
the line as-is otherwise. -/
def dedupeKey (trim_whitespace : Bool) (line : Line) : List Char :=
  if trim_whitespace then rustTrim line else line

/-- Second loop of `combine_with_dedup`: keep only lines whose key is not in
`seen`, adding kept keys to `seen` (the `HashSet` is modelled as the list
of inserted keys; only membership is ever used). -/
def dedupSecond (trim_whitespace : Bool) (seen : List (List Char)) :
    List Line → List Line
  | [] => []
  | l :: ls =>
    let key := dedupeKey trim_whitespace l
    if key ∈ seen then dedupSecond trim_whitespace seen ls
    else l :: dedupSecond trim_whitespace (key :: seen) ls

/-- The `result_lines` vector of `combine_with_dedup`: every line of the
first side (each inserted into the seen set), then the lines of the second
side whose key was not seen yet. -/
def dedupResultLines (first second : List Char) (trim_whitespace : Bool) :
    List Line :=
  let firstLines := rustLines first
  firstLines ++
    dedupSecond trim_whitespace (firstLines.map (dedupeKey trim_whitespace))
      (rustLines second)

/-- Rust `combine_with_dedup`: join the surviving lines with `'\n'` and restore a
trailing newline if either input had one. -/
def combine_with_dedup (first second : List Char) (trim_whitespace : Bool) :
    List Char :=
  let result := joinNL (dedupResultLines first second trim_whitespace)
  if endsWithNL first || endsWithNL second then result ++ ['\n'] else result

/-- Rust `Resolution::accept_left`. -/
def Resolution.accept_left (hunk : ConflictHunk) : Resolution :=
  { kind := ResolutionStrategyKind.AcceptLeft
    content := hunk.left.text
    metadata := ResolutionMetadata.default }

/-- Rust `Resolution::accept_right`. -/
def Resolution.accept_right (hunk : ConflictHunk) : Resolution :=
  { kind := ResolutionStrategyKind.AcceptRight
    content := hunk.right.text
    metadata := ResolutionMetadata.default }

/-- The side ordered first by `accept_both`'s `match options.order`. -/
def acceptBothFirst (hunk : ConflictHunk) (options : AcceptBothOptions) : List Char :=
  match options.order with
  | BothOrder.LeftThenRight => hunk.left.text
  | BothOrder.RightThenLeft => hunk.right.text

/-- The side ordered second by `accept_both`'s `match options.order`. -/
def acceptBothSecond (hunk : ConflictHunk) (options : AcceptBothOptions) : List Char :=
  match options.order with
  | BothOrder.LeftThenRight => hunk.right.text
  | BothOrder.RightThenLeft => hunk.left.text

/-- Rust `Resolution::accept_both`: order the two sides, pass an empty side
through verbatim, otherwise combine (with or without deduplication). -/
def Resolution.accept_both (hunk : ConflictHunk) (options : AcceptBothOptions) :
    Resolution :=
  let first := acceptBothFirst hunk options
  let second := acceptBothSecond hunk options
  if first.isEmpty ∧ second.isEmpty then
    { kind := ResolutionStrategyKind.AcceptBoth options
      content := [], metadata := ResolutionMetadata.default }
  else if first.isEmpty then
    { kind := ResolutionStrategyKind.AcceptBoth options
      content := second, metadata := ResolutionMetadata.default }
  else if second.isEmpty then
    { kind := ResolutionStrategyKind.AcceptBoth options
      content := first, metadata := ResolutionMetadata.default }
  else
    { kind := ResolutionStrategyKind.AcceptBoth options
      content :=
        if options.deduplicate then
          combine_with_dedup first second options.trim_whitespace
        else combine_simple first second
      metadata := ResolutionMetadata.default }

/-- Rust `Resolution::manual`: pass-through, content preserved exactly. -/
def Resolution.manual (content : List Char) : Resolution :=
  { kind := ResolutionStrategyKind.Manual
    content := content
    metadata := ResolutionMetadata.default }

/-! Section: Action history (weavr-core/src/history.rs) -/

/-- Rust `DEFAULT_MAX_DEPTH`. -/
def DEFAULT_MAX_DEPTH : Nat := 100

/-- A reversible action performed on a merge session. -/
inductive Action where
  | SetResolution (hunk_id : HunkId) (old : Option Resolution) (new : Resolution)
  | ClearResolution (hunk_id : HunkId) (old : Resolution)
deriving DecidableEq

/-- Undo/redo stacks. The `VecDeque` undo stack and `Vec` redo stack are both
modelled as lists whose head is the front/oldest entry and whose last element
is the back/most recent entry. -/
structure ActionHistory where
  undo_stack : List Action
  redo_stack : List Action
  max_depth : Nat
deriving DecidableEq

/-- Rust `ActionHistory::new`. -/
def ActionHistory.new : ActionHistory :=
  { undo_stack := [], redo_stack := [], max_depth := DEFAULT_MAX_DEPTH }

/-- Rust `ActionHistory::with_max_depth`. -/
def ActionHistory.with_max_depth (max_depth : Nat) : ActionHistory :=
  { undo_stack := [], redo_stack := [], max_depth := max_depth }

/-- Rust `ActionHistory::record`: clear redo, push at the back of undo, pop the
front (oldest) entry if the stack now exceeds `max_depth`. -/
def ActionHistory.record (h : ActionHistory) (action : Action) : ActionHistory :=
  let undo := h.undo_stack ++ [action]
  let undo := if undo.length > h.max_depth then undo.drop 1 else undo
  { h with redo_stack := [], undo_stack := undo }

/-- Rust `ActionHistory::undo`: pop the back of the undo stack, push it onto redo,
return it (`None` on an empty undo stack).  The Rust method mutates `self`
and returns the action; this model returns the action and the new history. -/
def ActionHistory.undo (h : ActionHistory) : Option Action × ActionHistory :=
  match h.undo_stack.getLast? with
  | none => (none, h)
  | some action =>
    (some action,
     { h with undo_stack := h.undo_stack.dropLast
              redo_stack := h.redo_stack ++ [action] })

/-- Rust `ActionHistory::redo`: pop the back of the redo stack, push it back onto
undo, return it (`None` on an empty redo stack). -/
def ActionHistory.redo (h : ActionHistory) : Option Action × ActionHistory :=
  match h.redo_stack.getLast? with
  | none => (none, h)
  | some action =>
    (some action,
     { h with redo_stack := h.redo_stack.dropLast
              undo_stack := h.undo_stack ++ [action] })

/-! Section: Session errors and result types
(meldr-core/src/error.rs, weavr-core/src/result.rs, meldr-core/src/input.rs) -/

/-- The state of a merge session. -/
inductive MergeState where
  | Uninitialized
  | Parsed
  | Active
  | FullyResolved
  | Applied
  | Validated
  | Completed
deriving DecidableEq, Repr

/-- Modelled from the spec: the `LifecycleError` enum is used by
`meldr-core/src/session.rs` but its declaration is not among the provided
sources; its variants follow spec §7 ("illegal state transition with
from/to/reason") and the two constructor applications in `session.rs`. -/
inductive LifecycleError where
  | InvalidTransition (fromState toState : MergeState) (reason : String)
  | OperationNotAllowed (operation : String) (state : MergeState)
deriving DecidableEq

/-- Error applying a resolution. -/
inductive ResolutionError where
  | HunkNotFound (id : HunkId)
  | InvalidResolution (reason : String)
deriving DecidableEq

/-- Error validating merge output. -/
inductive ValidationError where
  | UnresolvedHunks (ids : List HunkId)
  | MarkersRemain (count : Nat)
  | SyntaxError (reason : String)
deriving DecidableEq

/-- Error applying resolutions to generate output. -/
inductive ApplyError where
  | NotFullyResolved
  | InternalError (reason : String)
deriving DecidableEq

/-- Error completing a merge session. The `LifecycleError` variant is used by
`session.rs::complete`; the provided copy of `error.rs` predates it and has
only the first two variants (spec §7 lists all three). -/
inductive CompletionError where
  | ValidationFailed (e : ValidationError)
  | ApplyFailed (e : ApplyError)
  | LifecycleError (e : LifecycleError)
deriving DecidableEq

/-- A single version of a file (the path is an identifier, not used for IO). -/
structure FileVersion where
  path : String
  content : List Char
deriving DecidableEq

/-- The raw inputs to a merge operation. -/
structure MergeInput where
  left : FileVersion
  right : FileVersion
  base : Option FileVersion
deriving DecidableEq

/-- A merge warning. -/
structure MergeWarning where
  message : String
  hunk_id : Option HunkId
deriving DecidableEq

/-- Summary statistics for a merge. -/
structure MergeSummary where
  total_hunks : Nat
  resolved_hunks : Nat
deriving DecidableEq

/-- Final output of a merge session. -/
structure MergeResult where
  content : List Char
  unresolved_hunks : List HunkId
  warnings : List MergeWarning
  summary : MergeSummary
deriving DecidableEq

/-! Section: Merge session (meldr-core/src/session.rs)

Each `&mut self` method is modelled as a function from the session to a pair
of its Rust return value and the session after the call. -/

/-- A single merge attempt for one file.  The `HashMap<HunkId, Resolution>`
is modelled as an association list: `insert` replaces in place or appends,
`remove` deletes; only these two operations are performed on it. -/
structure MergeSession where
  input : MergeInput
  hunks : List ConflictHunk
  segments : List Segment
  state : MergeState
  resolutions : List (HunkId × Resolution)
deriving DecidableEq

/-- Rust `HashMap::insert` on the association-list model. -/
def mapInsert (k : HunkId) (v : Resolution) :
    List (HunkId × Resolution) → List (HunkId × Resolution)
  | [] => [(k, v)]
  | (k', v') :: rest =>
    if k' = k then (k, v) :: rest else (k', v') :: mapInsert k v rest

/-- Rust `HashMap::remove` on the association-list model. -/
def mapRemove (k : HunkId) :
    List (HunkId × Resolution) → List (HunkId × Resolution)
  | [] => []
  | (k', v') :: rest =>
    if k' = k then rest else (k', v') :: mapRemove k rest

/-- Rust `hunks.iter_mut().find(|h| h.id == hunk_id)` followed by a state
assignment: sets the state of the first hunk with the given id, or `none`
when no hunk has it. -/
def setHunkStateById (hunk_id : HunkId) (s : HunkState) :
    List ConflictHunk → Option (List ConflictHunk)
  | [] => none
  | h :: rest =>
    if h.id = hunk_id then some ({ h with state := s } :: rest)
    else (setHunkStateById hunk_id s rest).map (h :: ·)

/-- Whether a hunk is in the `Resolved` state. -/
def isResolvedHunk (h : ConflictHunk) : Bool :=
  match h.state with
  | HunkState.Resolved _ => true
  | _ => false

/-- Rust `MergeSession::is_fully_resolved`. -/
def MergeSession.is_fully_resolved (sess : MergeSession) : Bool :=
  sess.hunks.all isResolvedHunk

/-- Rust `MergeSession::unresolved_hunks`. -/
def MergeSession.unresolved_hunks (sess : MergeSession) : List HunkId :=
  (sess.hunks.filter (fun h => ¬ isResolvedHunk h)).map (fun h => h.id)

/-- Rust `MergeSession::from_conflicted`: parse, then start at `Validated` when
there are no hunks (already clean) or at `Parsed` otherwise. -/
def MergeSession.from_conflicted (content : List Char) (path : String) :
    Except ParseError MergeSession :=
  match parse_conflict_markers content with
  | Except.error e => Except.error e
  | Except.ok pc =>
    Except.ok
      { input :=
          { left := { path := path, content := content }
            right := { path := path, content := [] }
            base := none }
        hunks := pc.hunks
        segments := pc.segments
        state := if pc.hunks.isEmpty then MergeState.Validated else MergeState.Parsed
        resolutions := [] }

/-- Rust `MergeSession::update_state_from_hunks`. -/
def MergeSession.update_state_from_hunks (sess : MergeSession) : MergeSession :=
  let all_resolved := sess.is_fully_resolved
  match sess.state with
  | MergeState.Parsed =>
    if ¬ sess.hunks.isEmpty then
      if all_resolved then { sess with state := MergeState.FullyResolved }
      else { sess with state := MergeState.Active }
    else sess
  | MergeState.Active =>
    if all_resolved then { sess with state := MergeState.FullyResolved } else sess
  | MergeState.FullyResolved =>
    if ¬ all_resolved then { sess with state := MergeState.Active } else sess
  | _ => sess

/-- Rust `MergeSession::set_resolution`. -/
def MergeSession.set_resolution (sess : MergeSession) (hunk_id : HunkId)
    (resolution : Resolution) : Except ResolutionError Unit × MergeSession :=
  match sess.state with
  | MergeState.Parsed | MergeState.Active | MergeState.FullyResolved =>
    match setHunkStateById hunk_id (HunkState.Resolved resolution) sess.hunks with
    | none => (Except.error (ResolutionError.HunkNotFound hunk_id), sess)
    | some hunks' =>
      let sess' := { sess with
        hunks := hunks'
        resolutions := mapInsert hunk_id resolution sess.resolutions }
      (Except.ok (), sess'.update_state_from_hunks)
  | state =>
    (Except.error (ResolutionError.InvalidResolution
      ("cannot set resolution in state " ++ toString (repr state))), sess)

/-- Rust `MergeSession::clear_resolution`. -/
def MergeSession.clear_resolution (sess : MergeSession) (hunk_id : HunkId) :
    Except ResolutionError Unit × MergeSession :=
  match sess.state with
  | MergeState.Parsed | MergeState.Active | MergeState.FullyResolved =>
    match setHunkStateById hunk_id HunkState.Unresolved sess.hunks with
    | none => (Except.error (ResolutionError.HunkNotFound hunk_id), sess)
    | some hunks' =>
      let sess' := { sess with
        hunks := hunks'
        resolutions := mapRemove hunk_id sess.resolutions }
      (Except.ok (), sess'.update_state_from_hunks)
  | state =>
    (Except.error (ResolutionError.InvalidResolution
      ("cannot clear resolution in state " ++ toString (repr state))), sess)

/-- The body of the loop in `generate_output`, producing the rendered text of
each segment in order: clean text verbatim, resolved content for conflicts.
Indexing `self.hunks[*hunk_index]` out of range is a Rust panic; it is
modelled as an `InternalError`, and is proved unreachable together with the
unresolved-hunk branch (claim C8). -/
def renderSegments (hunks : List ConflictHunk) :
    List Segment → Except ApplyError (List (List Char))
  | [] => Except.ok []
  | seg :: rest =>
    let piece : Except ApplyError (List Char) :=
      match seg with
      | Segment.Clean text => Except.ok text
      | Segment.Conflict hunkIndex =>
        match hunks[hunkIndex]? with
        | none =>
          Except.error (ApplyError.InternalError
            ("hunk " ++ toString hunkIndex ++ " out of bounds"))
        | some hunk =>
          match hunk.state with
          | HunkState.Resolved resolution => Except.ok resolution.content
          | _ =>
            Except.error (ApplyError.InternalError
              ("hunk " ++ toString hunkIndex ++ " not resolved"))
    match piece with
    | Except.error e => Except.error e
    | Except.ok text =>
      match renderSegments hunks rest with
      | Except.error e => Except.error e
      | Except.ok rest' => Except.ok (text :: rest')

/-- Rust `MergeSession::generate_output`: the segment loop pushes `'\n'` after
every segment except the last, so the output is the `'\n'`-join of the
rendered segments. -/
def MergeSession.generate_output (sess : MergeSession) :
    Except ApplyError (List Char) :=
  match renderSegments sess.hunks sess.segments with
  | Except.error e => Except.error e
  | Except.ok pieces => Except.ok (joinNL pieces)

/-- Rust `MergeSession::apply`. -/
def MergeSession.apply (sess : MergeSession) :
    Except ApplyError (List Char) × MergeSession :=
  if sess.state ≠ MergeState.FullyResolved then
    (Except.error ApplyError.NotFullyResolved, sess)
  else
    match sess.generate_output with
    | Except.error e => (Except.error e, sess)
    | Except.ok output => (Except.ok output, { sess with state := MergeState.Applied })

/-- Rust `MergeSession::count_conflict_markers`: the number of `Resolved` hunks
whose content has a line starting with `<<<<<<<`, `=======` or `>>>>>>>`. -/
def MergeSession.count_conflict_markers (sess : MergeSession) : Nat :=
  (sess.hunks.filter (fun h =>
    match h.state with
    | HunkState.Resolved resolution =>
      (rustLines resolution.content).any (fun line =>
        startsWith ("<<<<<<<").data line || startsWith ("=======").data line ||
          startsWith (">>>>>>>").data line)
    | _ => false)).length

/-- Rust `MergeSession::validate`. -/
def MergeSession.validate (sess : MergeSession) :
    Except ValidationError Unit × MergeSession :=
  if sess.state ≠ MergeState.Applied then
    (Except.error (ValidationError.UnresolvedHunks sess.unresolved_hunks), sess)
  else if sess.count_conflict_markers > 0 then
    (Except.error (ValidationError.MarkersRemain sess.count_conflict_markers), sess)
  else
    (Except.ok (), { sess with state := MergeState.Validated })

/-- Rust `MergeSession::complete`.  The Rust method consumes the session; the final
session (with state `Completed` on success) is still returned here so the
transition can be stated. -/
def MergeSession.complete (sess : MergeSession) :
    Except CompletionError MergeResult × MergeSession :=
  if sess.state ≠ MergeState.Validated then
    (Except.error (CompletionError.LifecycleError
      (LifecycleError.OperationNotAllowed ("complete") sess.state)), sess)
  else
    match sess.generate_output with
    | Except.error e => (Except.error (CompletionError.ApplyFailed e), sess)
    | Except.ok content =>
      (Except.ok
        { content := content
          unresolved_hunks := []
          warnings := []
          summary :=
            { total_hunks := sess.hunks.length
              resolved_hunks := (sess.hunks.filter isResolvedHunk).length } },
       { sess with state := MergeState.Completed })

/-! Section: Reachability and observers used by the claims -/

/-- Sessions reachable through the public API alone: construction by
`from_conflicted` followed by any sequence of `set_resolution`,
`clear_resolution`, `apply`, `validate`, `complete` (each modelled as
returning the post-call session, unchanged on error). -/
inductive Reachable : MergeSession → Prop where
  | init (content : List Char) (path : String) (sess : MergeSession) :
      MergeSession.from_conflicted content path = Except.ok sess → Reachable sess
  | set (sess : MergeSession) (hunk_id : HunkId) (resolution : Resolution) :
      Reachable sess → Reachable (sess.set_resolution hunk_id resolution).2
  | clear (sess : MergeSession) (hunk_id : HunkId) :
      Reachable sess → Reachable (sess.clear_resolution hunk_id).2
  | app (sess : MergeSession) : Reachable sess → Reachable sess.apply.2
  | validate (sess : MergeSession) : Reachable sess → Reachable sess.validate.2
  | complete (sess : MergeSession) : Reachable sess → Reachable sess.complete.2

/-- The hunk index stored in a conflict segment, if any. -/
def conflictIndex : Segment → Option Nat
  | Segment.Clean _ => none
  | Segment.Conflict k => some k

/-- The resolved content of a hunk state (empty for non-`Resolved` states). -/
def resolvedContent : HunkState → List Char
  | HunkState.Resolved r => r.content
  | _ => []

/-- Whether position `k` of the hunk list holds a `Resolved` hunk. -/
def hunkResolvedAt (hunks : List ConflictHunk) (k : Nat) : Bool :=
  match hunks[k]? with
  | some h => isResolvedHunk h
  | none => false

/-- Whether an `apply` result is the `InternalError` variant. -/
def isInternalApplyError : Except ApplyError (List Char) → Bool
  | Except.error (ApplyError.InternalError _) => true
  | _ => false

/-- Whether a `complete` result wraps the `InternalError` variant. -/
def isInternalCompletionError : Except CompletionError MergeResult → Bool
  | Except.error (CompletionError.ApplyFailed (ApplyError.InternalError _)) => true
  | _ => false

/-- Invariant of the parsing loop: conflict segments reference exactly the
hunk positions `0, 1, …` in order, hunk ids equal positions, the id counter
equals the hunk count, and every parsed hunk starts `Unresolved`. -/
def PInv (st : PState) : Prop :=
  st.segments.filterMap conflictIndex = List.range st.hunks.length ∧
  st.hunks.map (fun h => h.id) = List.range st.hunks.length ∧
  st.hunkIdCounter = st.hunks.length ∧
  ∀ h ∈ st.hunks, h.state = HunkState.Unresolved

/-- Every conflict segment references a position inside the hunk list. -/
def SegmentsInBounds (sess : MergeSession) : Prop :=
  ∀ k, Segment.Conflict k ∈ sess.segments → k < sess.hunks.length

/-- Session invariant maintained by the public API: segment references stay
in bounds, and in the states from `FullyResolved` on, every hunk is
`Resolved`. -/
def SessionInv (sess : MergeSession) : Prop :=
  SegmentsInBounds sess ∧
  ((sess.state = MergeState.FullyResolved ∨ sess.state = MergeState.Applied ∨
      sess.state = MergeState.Validated ∨ sess.state = MergeState.Completed) →
    sess.is_fully_resolved = true)

end Weavr

-- sanity checks for the string primitives
example : Weavr.rustLines ("a\nb").data = [['a'], ['b']] := by decide
example : Weavr.rustLines ("a\n").data = [['a']] := by decide
example : Weavr.rustLines ("a\r\nb\r").data = [['a'], ['b', '\r']] := by decide
example : Weavr.rustLines ("").data = [] := by decide
example : Weavr.rustLines ("\n").data = [[]] := by decide
example : Weavr.rustLines ("a\n\nb").data = [['a'], [], ['b']] := by decide
example : Weavr.joinNL [['a'], ['b']] = ('a' :: '\n' :: ['b']) := by decide
example : Weavr.startsWith ("ab").data ("abc").data = true := by decide
example : Weavr.rustTrim ("  a b ").data = ('a' :: ' ' :: ['b']) := by decide

example : Weavr.detect_marker ("=======").data = some Weavr.Marker.Separator := by decide
example : Weavr.detect_marker ("======").data = none := by decide
example : Weavr.detect_marker ("=======x").data = none := by decide
example : Weavr.detect_marker ("<<<<<<< HEAD").data = some Weavr.Marker.Start := by decide

example :
    (Weavr.parse_conflict_markers
      ("before\n<<<<<<< HEAD\nleft\n=======\nright\n>>>>>>> feature\nafter").data).map
      (fun pc => (pc.hunks.map (fun h => h.left.text),
                  pc.hunks.map (fun h => h.right.text),
                  pc.segments.length))
    = Except.ok ([("left").data], [("right").data], 3) := by decide

namespace Weavr

/-! Section: Helper lemmas -/

theorem flushClean_filterMap (segs : List Segment) (buf : List Line) :
    (flushClean segs buf).filterMap conflictIndex = segs.filterMap conflictIndex := by
  unfold flushClean
  split
  · rfl
  · simp [conflictIndex]

theorem parseStep_inv (allLines : List Line) (n : Nat) (line : Line) (st st' : PState)
    (h : parseStep allLines n line st = Except.ok st') (hinv : PInv st) : PInv st' := by
  obtain ⟨h1, h2, h3, h4⟩ := hinv
  unfold parseStep at h
  split at h
  all_goals simp only [Except.ok.injEq, reduceCtorEq] at h
  all_goals subst h
  all_goals try exact ⟨h1, h2, h3, h4⟩
  case _ =>
    exact ⟨by simpa [flushClean_filterMap] using h1, h2, h3, h4⟩
  case _ =>
    refine ⟨?_, ?_, ?_, ?_⟩
    · simp only [List.filterMap_append, h1, List.length_append, List.length_cons,
        List.length_nil]
      simp [List.range_succ, conflictIndex]
    · simp only [List.map_append, h2, List.length_append, List.length_cons, List.length_nil]
      simp [List.range_succ, emitHunk, h3]
    · simp [h3]
    · intro h hm
      rcases List.mem_append.mp hm with hm | hm
      · exact h4 h hm
      · simp only [List.mem_singleton] at hm
        subst hm
        rfl

theorem parseLoop_inv (allLines : List Line) (ls : List Line) :
    ∀ (n : Nat) (st st' : PState),
      parseLoop allLines n ls st = Except.ok st' → PInv st → PInv st' := by
  induction ls with
  | nil =>
    intro n st st' h hinv
    simp only [parseLoop, Except.ok.injEq] at h
    subst h; exact hinv
  | cons l ls ih =>
    intro n st st' h hinv
    simp only [parseLoop] at h
    rcases hs : parseStep allLines n l st with e | st1
    · rw [hs] at h; exact absurd h (by simp)
    · rw [hs] at h
      exact ih (n + 1) st1 st' h (parseStep_inv allLines n l st st1 hs hinv)

theorem fill_after_context_length (hunks : List ConflictHunk) (lines : List Line) :
    (fill_after_context hunks lines).length = hunks.length := by
  simp [fill_after_context]

theorem fill_after_context_map_id (hunks : List ConflictHunk) (lines : List Line) :
    (fill_after_context hunks lines).map (fun h => h.id) = hunks.map (fun h => h.id) := by
  unfold fill_after_context
  rw [List.map_map]
  trans (hunks.enum.map (fun p => p.2.id))
  · apply List.map_congr_left
    intro p _
    simp only [Function.comp_apply]
    split <;> split <;> rfl
  · rw [show (fun p : Nat × ConflictHunk => p.2.id) = ((fun h => h.id) ∘ Prod.snd) from rfl,
      ← List.map_map, List.enum_map_snd]

theorem parse_ok_ranges (content : List Char) (pc : ParsedConflict)
    (h : parse_conflict_markers content = Except.ok pc) :
    pc.hunks.map (fun h => h.id) = List.range pc.hunks.length ∧
    pc.segments.filterMap conflictIndex = List.range pc.hunks.length := by
  simp only [parse_conflict_markers] at h
  split at h
  · exact absurd h (by simp)
  · rename_i st hl
    split at h
    · exact absurd h (by simp)
    · have hinv : PInv st :=
        parseLoop_inv (rustLines content) (rustLines content) 0 initPState st hl
          ⟨rfl, rfl, rfl, by intro a hm; cases hm⟩
      obtain ⟨h1, h2, h3, h4⟩ := hinv
      simp only [Except.ok.injEq] at h
      subst h
      constructor
      · rw [fill_after_context_map_id, fill_after_context_length]; exact h2
      · rw [flushClean_filterMap, fill_after_context_length]; exact h1

theorem setHunkStateById_length (hunk_id : HunkId) (s : HunkState) :
    ∀ (hunks hunks' : List ConflictHunk),
      setHunkStateById hunk_id s hunks = some hunks' → hunks'.length = hunks.length := by
  intro hunks
  induction hunks with
  | nil => intro hunks' h; simp [setHunkStateById] at h
  | cons hd tl ih =>
    intro hunks' h
    simp only [setHunkStateById] at h
    split at h
    · simp only [Option.some.injEq] at h
      subst h; simp
    · rcases hr : setHunkStateById hunk_id s tl with _ | tl'
      · rw [hr] at h; simp at h
      · rw [hr] at h
        simp only [Option.map_some', Option.some.injEq] at h
        subst h
        simp [ih tl' hr]

theorem update_state_from_hunks_inv (s : MergeSession)
    (hb : SegmentsInBounds s)
    (hsmall : s.state = MergeState.Parsed ∨ s.state = MergeState.Active ∨
      s.state = MergeState.FullyResolved) :
    SessionInv s.update_state_from_hunks := by
  unfold MergeSession.update_state_from_hunks
  rcases hsmall with hst | hst | hst <;> rw [hst] <;> simp only []
  · by_cases he : ¬ s.hunks.isEmpty
    · rw [if_pos he]
      by_cases hall : s.is_fully_resolved
      · rw [if_pos hall]
        exact ⟨hb, fun _ => hall⟩
      · rw [if_neg hall]
        refine ⟨hb, fun hbig => ?_⟩
        rcases hbig with hc | hc | hc | hc <;> exact absurd hc (by simp)
    · rw [if_neg he]
      refine ⟨hb, fun hbig => ?_⟩
      rw [hst] at hbig
      rcases hbig with hc | hc | hc | hc <;> exact absurd hc (by simp)
  · by_cases hall : s.is_fully_resolved
    · rw [if_pos hall]
      exact ⟨hb, fun _ => hall⟩
    · rw [if_neg hall]
      refine ⟨hb, fun hbig => ?_⟩
      rw [hst] at hbig
      rcases hbig with hc | hc | hc | hc <;> exact absurd hc (by simp)
  · by_cases hall : ¬ s.is_fully_resolved
    · rw [if_pos hall]
      refine ⟨hb, fun hbig => ?_⟩
      rcases hbig with hc | hc | hc | hc <;> exact absurd hc (by simp)
    · rw [if_neg hall]
      push_neg at hall
      exact ⟨hb, fun _ => hall⟩

theorem set_resolution_inv (s : MergeSession) (hunk_id : HunkId) (res : Resolution)
    (hinv : SessionInv s) : SessionInv (s.set_resolution hunk_id res).2 := by
  unfold MergeSession.set_resolution
  cases hst : s.state <;> simp only []
  case Parsed | Active | FullyResolved =>
    rcases hset : setHunkStateById hunk_id (HunkState.Resolved res) s.hunks with _ | hunks' <;>
      simp only []
    · exact hinv
    · apply update_state_from_hunks_inv
      · intro k hk
        have := hinv.1 k hk
        simpa [setHunkStateById_length hunk_id _ s.hunks hunks' hset] using this
      · simp [hst]
  all_goals exact hinv

theorem clear_resolution_inv (s : MergeSession) (hunk_id : HunkId)
    (hinv : SessionInv s) : SessionInv (s.clear_resolution hunk_id).2 := by
  unfold MergeSession.clear_resolution
  cases hst : s.state <;> simp only []
  case Parsed | Active | FullyResolved =>
    rcases hset : setHunkStateById hunk_id HunkState.Unresolved s.hunks with _ | hunks' <;>
      simp only []
    · exact hinv
    · apply update_state_from_hunks_inv
      · intro k hk
        have := hinv.1 k hk
        simpa [setHunkStateById_length hunk_id _ s.hunks hunks' hset] using this
      · simp [hst]
  all_goals exact hinv

theorem apply_inv (s : MergeSession) (hinv : SessionInv s) : SessionInv s.apply.2 := by
  unfold MergeSession.apply
  by_cases hst : s.state = MergeState.FullyResolved
  · rw [if_neg (by simp [hst])]
    rcases hg : s.generate_output with e | out <;> simp only []
    · exact hinv
    · exact ⟨hinv.1, fun _ => hinv.2 (Or.inl hst)⟩
  · rw [if_pos (by simp [hst])]
    exact hinv

theorem validate_inv (s : MergeSession) (hinv : SessionInv s) : SessionInv s.validate.2 := by
  unfold MergeSession.validate
  by_cases hst : s.state = MergeState.Applied
  · rw [if_neg (by simp [hst])]
    by_cases hc : s.count_conflict_markers > 0
    · rw [if_pos hc]; exact hinv
    · rw [if_neg hc]
      exact ⟨hinv.1, fun _ => hinv.2 (Or.inr (Or.inl hst))⟩
  · rw [if_pos (by simp [hst])]
    exact hinv

theorem complete_inv (s : MergeSession) (hinv : SessionInv s) : SessionInv s.complete.2 := by
  unfold MergeSession.complete
  by_cases hst : s.state = MergeState.Validated
  · rw [if_neg (by simp [hst])]
    rcases hg : s.generate_output with e | out <;> simp only []
    · exact hinv
    · exact ⟨hinv.1, fun _ => hinv.2 (Or.inr (Or.inr (Or.inl hst)))⟩
  · rw [if_pos (by simp [hst])]
    exact hinv

theorem reachable_inv (sess : MergeSession) (h : Reachable sess) : SessionInv sess := by
  induction h with
  | init content path s hs =>
    unfold MergeSession.from_conflicted at hs
    split at hs
    · exact absurd hs (by simp)
    · rename_i pc hpc
      obtain ⟨hid, hseg⟩ := parse_ok_ranges content pc hpc
      simp only [Except.ok.injEq] at hs
      subst hs
      constructor
      · intro k hk
        have hmem : k ∈ pc.segments.filterMap conflictIndex :=
          List.mem_filterMap.mpr ⟨Segment.Conflict k, hk, rfl⟩
        rw [hseg] at hmem
        simpa using hmem
      · intro hbig
        by_cases he : pc.hunks.isEmpty
        · have : pc.hunks = [] := List.isEmpty_iff.mp he
          simp [MergeSession.is_fully_resolved, this]
        · exfalso
          simp only [he, if_false] at hbig
          rcases hbig with hc | hc | hc | hc <;> exact absurd hc (by simp)
  | set s hunk_id res _ ih => exact set_resolution_inv s hunk_id res ih
  | clear s hunk_id _ ih => exact clear_resolution_inv s hunk_id ih
  | app s _ ih => exact apply_inv s ih
  | validate s _ ih => exact validate_inv s ih
  | complete s _ ih => exact complete_inv s ih

theorem renderSegments_ok (hunks : List ConflictHunk) (segs : List Segment)
    (hres : ∀ k, Segment.Conflict k ∈ segs → hunkResolvedAt hunks k = true) :
    ∃ pieces, renderSegments hunks segs = Except.ok pieces := by
  induction segs with
  | nil => exact ⟨[], rfl⟩
  | cons seg rest ih =>
    obtain ⟨pieces, hp⟩ := ih (fun k hk => hres k (List.mem_cons_of_mem _ hk))
    cases seg with
    | Clean text =>
      exact ⟨text :: pieces, by simp [renderSegments, hp]⟩
    | Conflict k =>
      have hk := hres k (List.mem_cons_self _ _)
      rcases hg : hunks[k]? with _ | hunk
      · simp [hunkResolvedAt, hg] at hk
      · simp only [hunkResolvedAt, hg] at hk
        cases hhs : hunk.state <;> simp [isResolvedHunk, hhs] at hk
        case Resolved r =>
          refine ⟨r.content :: pieces, ?_⟩
          simp [renderSegments, hg, hhs, hp]

end Weavr

namespace Weavr

/-! Section: Claim C7 — action history -/

/-- C7: `record` pushes onto the undo stack, clears the redo stack, and
evicts the oldest entry once the stack exceeds `max_depth` (default 100);
`undo` pops and returns the most recent action (`none` on empty); an `undo`
that returned an action followed by `redo` returns the same action and
restores both stacks exactly. -/
theorem C7_history_undo_redo (h : ActionHistory) (a : Action) :
    ActionHistory.new.max_depth = 100 ∧
    (h.record a).redo_stack = [] ∧
    (h.undo_stack.length < h.max_depth → (h.record a).undo_stack = h.undo_stack ++ [a]) ∧
    (h.max_depth ≤ h.undo_stack.length →
      (h.record a).undo_stack = (h.undo_stack ++ [a]).drop 1) ∧
    h.undo.1 = h.undo_stack.getLast? ∧
    (h.undo_stack = [] → h.undo = (none, h)) ∧
    (∀ a', h.undo.1 = some a' → h.undo.2.redo = (some a', h)) := by
  refine ⟨rfl, rfl, ?_, ?_, ?_, ?_, ?_⟩
  · intro hlt
    simp only [ActionHistory.record]
    rw [if_neg]
    simp only [List.length_append, List.length_cons, List.length_nil]
    omega
  · intro hge
    simp only [ActionHistory.record]
    rw [if_pos]
    simp only [List.length_append, List.length_cons, List.length_nil]
    omega
  · simp only [ActionHistory.undo]
    rcases hl : h.undo_stack.getLast? with _ | a' <;> simp
  · intro hemp
    simp only [ActionHistory.undo, hemp, List.getLast?_nil]
  · intro a' ha'
    simp only [ActionHistory.undo] at ha' ⊢
    rcases hl : h.undo_stack.getLast? with _ | b
    · rw [hl] at ha'; simp at ha'
    · rw [hl] at ha'
      simp only [Option.some.injEq] at ha'
      subst ha'
      simp only [ActionHistory.redo]
      simp [List.dropLast_append_getLast? b hl]

/-- The concrete action used by the C7 witness. -/
def c7a : Action := Action.ClearResolution 0 (Resolution.manual [])

/-- Witness for C7 at a one-element history: the undo/redo roundtrip
restores the history and `record` clears the redo stack. -/
theorem C7_witness :
    (ActionHistory.new.record c7a).undo.2.redo = (some c7a, ActionHistory.new.record c7a) ∧
    (ActionHistory.new.record c7a).redo_stack = [] :=
  ⟨(C7_history_undo_redo (ActionHistory.new.record c7a) c7a).2.2.2.2.2.2 c7a (by decide),
   (C7_history_undo_redo ActionHistory.new c7a).2.1⟩

/-! Section: Claim C5 — no mutation on failure -/

/-- C5: whenever `set_resolution`, `clear_resolution`, `apply` or `validate`
returns an error, the session (state, hunks, segments, resolution map) is
exactly what it was before the call. -/
theorem C5_errors_leave_session_unchanged (sess : MergeSession) (hunk_id : HunkId)
    (resolution : Resolution) :
    (∀ e, (sess.set_resolution hunk_id resolution).1 = Except.error e →
      (sess.set_resolution hunk_id resolution).2 = sess) ∧
    (∀ e, (sess.clear_resolution hunk_id).1 = Except.error e →
      (sess.clear_resolution hunk_id).2 = sess) ∧
    (∀ e, sess.apply.1 = Except.error e → sess.apply.2 = sess) ∧
    (∀ e, sess.validate.1 = Except.error e → sess.validate.2 = sess) := by
  refine ⟨?_, ?_, ?_, ?_⟩
  · intro e he
    cases hst : sess.state <;>
      simp only [MergeSession.set_resolution, hst] at he ⊢ <;>
      try rfl
    all_goals (
      rcases hset : setHunkStateById hunk_id (HunkState.Resolved resolution) sess.hunks
          with _ | hunks' <;>
        simp only [hset] at he ⊢)
    all_goals exact absurd he (by simp)
  · intro e he
    cases hst : sess.state <;>
      simp only [MergeSession.clear_resolution, hst] at he ⊢ <;>
      try rfl
    all_goals (
      rcases hset : setHunkStateById hunk_id HunkState.Unresolved sess.hunks
          with _ | hunks' <;>
        simp only [hset] at he ⊢)
    all_goals exact absurd he (by simp)
  · intro e he
    by_cases hst : sess.state = MergeState.FullyResolved
    · simp only [MergeSession.apply, hst, ne_eq, not_true_eq_false, if_false] at he ⊢
      rcases hg : sess.generate_output with e' | out <;> simp only [hg] at he ⊢
      exact absurd he (by simp)
    · simp only [MergeSession.apply, ne_eq, hst, not_false_eq_true, if_true]
  · intro e he
    by_cases hst : sess.state = MergeState.Applied
    · simp only [MergeSession.validate, hst, ne_eq, not_true_eq_false, if_false] at he ⊢
      by_cases hc : sess.count_conflict_markers > 0
      · simp only [hc, if_true]
      · simp only [hc, if_false] at he
        exact absurd he (by simp)
    · simp only [MergeSession.validate, ne_eq, hst, not_false_eq_true, if_true]

/-- The session used by the C5 witness: one clean segment, no hunks,
already `Validated` (the parse of `"x"` with no conflicts). -/
def c5sess : MergeSession :=
  { input := { left := { path := "w.rs", content := ("x").data }
               right := { path := "w.rs", content := [] }
               base := none }
    hunks := []
    segments := [Segment.Clean (("x").data)]
    state := MergeState.Validated
    resolutions := [] }

/-- Witness for C5: an `apply` call in state `Validated` fails and leaves
the session untouched. -/
theorem C5_witness : c5sess.apply.2 = c5sess :=
  (C5_errors_leave_session_unchanged c5sess 0 (Resolution.manual [])).2.2.1
    ApplyError.NotFullyResolved (by decide)

/-! Section: Claim C4 — lifecycle guards -/

/-- C4: for reachable sessions, `apply` fails with `NotFullyResolved`
whenever some hunk is `Unresolved` (and, more generally, whenever the state
is not `FullyResolved`) and moves the state to `Applied` on success;
`validate` fails with `UnresolvedHunks` whenever the state is not `Applied`
and moves it to `Validated` on success; `complete` fails with a
`LifecycleError` whenever the state is not `Validated` and produces the
`MergeResult` with state `Completed` on success. -/
theorem C4_lifecycle_guards (sess : MergeSession) (hreach : Reachable sess) :
    ((∃ h ∈ sess.hunks, h.state = HunkState.Unresolved) →
      sess.apply.1 = Except.error ApplyError.NotFullyResolved) ∧
    (sess.state ≠ MergeState.FullyResolved →
      sess.apply.1 = Except.error ApplyError.NotFullyResolved) ∧
    (∀ output, sess.apply.1 = Except.ok output →
      sess.apply.2.state = MergeState.Applied) ∧
    (sess.state ≠ MergeState.Applied →
      sess.validate.1 = Except.error (ValidationError.UnresolvedHunks sess.unresolved_hunks)) ∧
    (sess.validate.1 = Except.ok () → sess.validate.2.state = MergeState.Validated) ∧
    (sess.state ≠ MergeState.Validated →
      sess.complete.1 = Except.error (CompletionError.LifecycleError
        (LifecycleError.OperationNotAllowed ("complete") sess.state))) ∧
    (∀ result, sess.complete.1 = Except.ok result →
      sess.complete.2.state = MergeState.Completed) := by
  have hnfr : sess.state ≠ MergeState.FullyResolved →
      sess.apply.1 = Except.error ApplyError.NotFullyResolved := by
    intro hst
    simp only [MergeSession.apply, ne_eq, hst, not_false_eq_true, if_true]
  refine ⟨?_, hnfr, ?_, ?_, ?_, ?_, ?_⟩
  · intro hex
    obtain ⟨h, hm, hu⟩ := hex
    apply hnfr
    intro hFR
    have hall := (reachable_inv sess hreach).2 (Or.inl hFR)
    have hres := List.all_eq_true.mp hall h hm
    simp [isResolvedHunk, hu] at hres
  · intro output hok
    by_cases hst : sess.state = MergeState.FullyResolved
    · simp only [MergeSession.apply, hst, ne_eq, not_true_eq_false, if_false] at hok ⊢
      rcases hg : sess.generate_output with e | out <;> simp only [hg] at hok ⊢
      all_goals first
        | rfl
        | exact absurd hok (by simp)
    · rw [hnfr hst] at hok
      exact absurd hok (by simp)
  · intro hst
    simp only [MergeSession.validate, ne_eq, hst, not_false_eq_true, if_true]
  · intro hok
    by_cases hst : sess.state = MergeState.Applied
    · simp only [MergeSession.validate, hst, ne_eq, not_true_eq_false, if_false] at hok ⊢
      by_cases hc : sess.count_conflict_markers > 0
      · simp only [hc, if_true] at hok
        exact absurd hok (by simp)
      · simp only [hc, if_false]
    · simp only [MergeSession.validate, ne_eq, hst, not_false_eq_true, if_true] at hok
      exact absurd hok (by simp)
  · intro hst
    simp only [MergeSession.complete, ne_eq, hst, not_false_eq_true, if_true]
  · intro result hok
    by_cases hst : sess.state = MergeState.Validated
    · simp only [MergeSession.complete, hst, ne_eq, not_true_eq_false, if_false] at hok ⊢
      rcases hg : sess.generate_output with e | out <;> simp only [hg] at hok ⊢
      all_goals first
        | rfl
        | exact absurd hok (by simp)
    · simp only [MergeSession.complete, ne_eq, hst, not_false_eq_true, if_true] at hok
      exact absurd hok (by simp)

/-- Witness for C4: the clean-file session `c5sess` is reachable and in state
`Validated`, so `apply` fails with `NotFullyResolved`. -/
theorem C4_witness : c5sess.apply.1 = Except.error ApplyError.NotFullyResolved :=
  (C4_lifecycle_guards c5sess
      (Reachable.init (("x").data) ("w.rs") c5sess (by decide))).2.1 (by decide)

end Weavr

namespace Weavr

/-! Section: Claim C8 — `InternalError` is unreachable through the public API -/

/-- C8: in a session reachable through the public API whose state is
`FullyResolved` (where `apply` runs) or `Validated` (where `complete` runs),
every conflict segment references an in-bounds hunk in the `Resolved` state,
and neither `apply` nor `complete` can produce the `InternalError` variant. -/
theorem C8_internal_error_unreachable (sess : MergeSession) (hreach : Reachable sess)
    (hst : sess.state = MergeState.FullyResolved ∨ sess.state = MergeState.Validated) :
    (∀ k, Segment.Conflict k ∈ sess.segments → hunkResolvedAt sess.hunks k = true) ∧
    isInternalApplyError sess.apply.1 = false ∧
    isInternalCompletionError sess.complete.1 = false := by
  obtain ⟨hb, hfull⟩ := reachable_inv sess hreach
  have hall : sess.is_fully_resolved = true := by
    rcases hst with h | h
    · exact hfull (Or.inl h)
    · exact hfull (Or.inr (Or.inr (Or.inl h)))
  have hres : ∀ k, Segment.Conflict k ∈ sess.segments → hunkResolvedAt sess.hunks k = true := by
    intro k hk
    have hlt := hb k hk
    unfold hunkResolvedAt
    rw [List.getElem?_eq_getElem hlt]
    exact List.all_eq_true.mp hall _ (List.getElem_mem hlt)
  obtain ⟨pieces, hp⟩ := renderSegments_ok sess.hunks sess.segments hres
  have hg : sess.generate_output = Except.ok (joinNL pieces) := by
    unfold MergeSession.generate_output
    rw [hp]
  refine ⟨hres, ?_, ?_⟩
  · unfold MergeSession.apply
    rcases hst with hFR | hVal
    · rw [if_neg (by simp [hFR])]
      simp [hg, isInternalApplyError]
    · rw [if_pos (by simp [hVal])]
      simp [isInternalApplyError]
  · unfold MergeSession.complete
    rcases hst with hFR | hVal
    · rw [if_pos (by simp [hFR])]
      simp [isInternalCompletionError]
    · rw [if_neg (by simp [hVal])]
      simp [hg, isInternalCompletionError]

/-- The session parsed from a one-conflict file, used by the C8/C10
witnesses (the value of `from_conflicted` on the content below). -/
def c8base : MergeSession :=
  { input := { left := { path := "t.rs"
                         content := ("a\n<<<<<<< H\nl\n=======\nr\n>>>>>>> F\nb").data }
               right := { path := "t.rs", content := [] }
               base := none }
    hunks := [{ id := 0
                left := { text := ("l").data }
                right := { text := ("r").data }
                base := none
                context := { before := [("a").data], after := [("b").data]
                             start_line_left := 3, start_line_right := 5 }
                state := HunkState.Unresolved }]
    segments := [Segment.Clean (("a").data), Segment.Conflict 0, Segment.Clean (("b").data)]
    state := MergeState.Parsed
    resolutions := [] }

/-- The resolution applied by the C8 witness. -/
def c8res : Resolution := Resolution.manual (("done").data)

/-- Witness for C8: after resolving the single hunk of `c8base` the session
is reachable and `FullyResolved`; the conflict segment references a resolved
hunk and `apply` does not produce `InternalError`. -/
theorem C8_witness :
    hunkResolvedAt ((c8base.set_resolution 0 c8res).2).hunks 0 = true ∧
    isInternalApplyError ((c8base.set_resolution 0 c8res).2).apply.1 = false :=
  have hr : Reachable (c8base.set_resolution 0 c8res).2 :=
    Reachable.set c8base 0 c8res
      (Reachable.init (("a\n<<<<<<< H\nl\n=======\nr\n>>>>>>> F\nb").data) ("t.rs") c8base
        (by decide))
  have hc := C8_internal_error_unreachable ((c8base.set_resolution 0 c8res).2) hr
    (Or.inl (by decide))
  ⟨hc.1 0 (by decide), hc.2.1⟩

end Weavr

namespace Weavr

/-! Section: Claim C9 — parse indices -/

/-- C9: in every successful parse the hunk at position `i` carries id `i`,
and the conflict segments reference exactly the indices `0, …, n-1`, each
once, in strictly increasing order (so they are all in bounds and id-lookup
and index-lookup agree). -/
theorem C9_hunk_ids_and_segment_indices (content : List Char) (pc : ParsedConflict)
    (h : parse_conflict_markers content = Except.ok pc) :
    pc.hunks.map (fun h => h.id) = List.range pc.hunks.length ∧
    pc.segments.filterMap conflictIndex = List.range pc.hunks.length :=
  parse_ok_ranges content pc h

/-- The parse of `"<<<<<<<\n=======\n>>>>>>>"`, used by the C9 witness. -/
def c9pc : ParsedConflict :=
  { hunks := [{ id := 0
                left := { text := [] }
                right := { text := [] }
                base := none
                context := { before := [], after := []
                             start_line_left := 2, start_line_right := 3 }
                state := HunkState.Unresolved }]
    segments := [Segment.Conflict 0] }

/-- Witness for C9 at a minimal one-conflict input. -/
theorem C9_witness :
    c9pc.hunks.map (fun h => h.id) = List.range c9pc.hunks.length ∧
    c9pc.segments.filterMap conflictIndex = List.range c9pc.hunks.length :=
  C9_hunk_ids_and_segment_indices (("<<<<<<<\n=======\n>>>>>>>").data) c9pc (by decide)

/-! Section: Claim C1 — clean-content roundtrip -/

theorem parseLoop_clean (allLines : List Line) (ls : List Line) :
    ∀ (n : Nat) (st : PState), st.state = ParserState.Clean →
      (∀ l ∈ ls, detect_marker l = none) →
      parseLoop allLines n ls st =
        Except.ok { st with cleanBuffer := st.cleanBuffer ++ ls } := by
  induction ls with
  | nil =>
    intro n st _ _
    simp only [parseLoop, List.append_nil]
  | cons l ls ih =>
    intro n st hclean hnm
    have hstep : parseStep allLines n l st =
        Except.ok { st with cleanBuffer := st.cleanBuffer ++ [l] } := by
      unfold parseStep
      rw [hnm l (List.mem_cons_self _ _), hclean]
    simp only [parseLoop, hstep]
    rw [ih (n + 1) { st with cleanBuffer := st.cleanBuffer ++ [l] } hclean
      (fun x hx => hnm x (List.mem_cons_of_mem _ hx))]
    simp [List.append_assoc]

/-- C1 (amended): for content without marker lines, parsing yields zero
hunks, the session starts `Validated`, and `complete` reproduces the
`'\n'`-join of the content's lines — which is the content itself exactly
when the content has no trailing newline and no CR-LF line endings. -/
theorem C1_no_marker_roundtrip (content : List Char) (path : String)
    (hnm : ∀ l ∈ rustLines content, detect_marker l = none) :
    (MergeSession.from_conflicted content path).map
      (fun sess => (sess.hunks, sess.state, sess.complete.1.map (fun r => r.content)))
    = Except.ok ([], MergeState.Validated, Except.ok (joinNL (rustLines content))) := by
  have hloop' : parseLoop (rustLines content) 0 (rustLines content) initPState =
      Except.ok { initPState with cleanBuffer := rustLines content } := by
    rw [parseLoop_clean (rustLines content) (rustLines content) 0 initPState rfl hnm]
    simp [initPState]
  have hparse : parse_conflict_markers content =
      Except.ok { hunks := [], segments := flushClean [] (rustLines content) } := by
    simp only [parse_conflict_markers]
    rw [hloop']
    rfl
  have hsess : MergeSession.from_conflicted content path = Except.ok
      { input := { left := { path := path, content := content }
                   right := { path := path, content := [] }
                   base := none }
        hunks := []
        segments := flushClean [] (rustLines content)
        state := MergeState.Validated
        resolutions := [] } := by
    unfold MergeSession.from_conflicted
    rw [hparse]
    rfl
  rw [hsess]
  rcases hl : rustLines content with _ | ⟨l, ls⟩ <;> rfl

/-- Counterexample to C1 as stated: `"a\n"` contains no marker lines, parses
to zero hunks and starts `Validated`, but the completed output is `"a"` —
the trailing newline is lost, so the output is not byte-for-byte the
original content. -/
theorem C1_counterexample :
    (∀ l ∈ rustLines (("a\n").data), detect_marker l = none) ∧
    (MergeSession.from_conflicted (("a\n").data) ("file.rs")).map
      (fun sess => (sess.hunks, sess.state, sess.complete.1.map (fun r => r.content)))
      = Except.ok ([], MergeState.Validated, Except.ok (("a").data)) ∧
    ("a").data ≠ ("a\n").data := by decide

/-- Witness for the amended C1 at newline-normalized content without a
trailing newline, where the roundtrip is exact. -/
theorem C1_witness :
    (MergeSession.from_conflicted (("hello\nworld").data) ("w.rs")).map
      (fun sess => (sess.hunks, sess.state, sess.complete.1.map (fun r => r.content)))
    = Except.ok ([], MergeState.Validated,
        Except.ok (joinNL (rustLines (("hello\nworld").data)))) :=
  C1_no_marker_roundtrip (("hello\nworld").data) ("w.rs") (by decide)

end Weavr

namespace Weavr

/-! Section: Claim C2 — after-context clipping -/

/-- Two adjacent conflicts: hunk 1 starts on the second line after hunk 0's
end marker. -/
def c2Input : List Char :=
  ("<<<<<<< A\na\n=======\nb\n>>>>>>> A\nmid\n<<<<<<< B\nc\n=======\nd\n>>>>>>> B").data

/-- C2 fails on the code: on `c2Input` the parser gives hunk 0 the
after-context `["mid", "<<<<<<< B"]`, whose second line is hunk 1's
Start-marker line.  `fill_after_context` clips at
`start_line_left - 1`, which is the 1-indexed number of the next Start
marker (equal to its 0-indexed position plus one), so the exclusive slice
bound lands one line too far and the neighbouring Start marker is
included. -/
theorem C2_after_context_includes_next_start_marker :
    (parse_conflict_markers c2Input).map (fun pc => pc.hunks.map (fun h => h.context.after))
      = Except.ok [[("mid").data, ("<<<<<<< B").data], []] ∧
    detect_marker (("<<<<<<< B").data) = some Marker.Start := by decide

/-! Section: Claim C3 — deduplicated accept-both -/

theorem dedupSecond_key_not_seen (trim : Bool) :
    ∀ (sl : List Line) (seen : List (List Char)) (l : Line),
      l ∈ dedupSecond trim seen sl → dedupeKey trim l ∉ seen := by
  intro sl
  induction sl with
  | nil => intro seen l h; cases h
  | cons m ms ih =>
    intro seen l h
    simp only [dedupSecond] at h
    by_cases hk : dedupeKey trim m ∈ seen
    · rw [if_pos hk] at h
      exact ih seen l h
    · rw [if_neg hk] at h
      rcases List.mem_cons.mp h with rfl | h
      · exact hk
      · intro hseen
        exact (ih (dedupeKey trim m :: seen) l h) (List.mem_cons_of_mem _ hseen)

theorem dedupSecond_nodup (trim : Bool) :
    ∀ (sl : List Line) (seen : List (List Char)),
      ((dedupSecond trim seen sl).map (dedupeKey trim)).Nodup := by
  intro sl
  induction sl with
  | nil => intro seen; simp [dedupSecond]
  | cons m ms ih =>
    intro seen
    simp only [dedupSecond]
    split
    · exact ih _
    · rename_i hk
      simp only [List.map_cons, List.nodup_cons]
      refine ⟨?_, ih _⟩
      intro hmem
      obtain ⟨l, hl, hkey⟩ := List.mem_map.mp hmem
      have hni := dedupSecond_key_not_seen trim ms (dedupeKey trim m :: seen) l hl
      rw [hkey] at hni
      exact hni (List.mem_cons_self _ _)

theorem dedupSecond_find (trim : Bool) :
    ∀ (sl : List Line) (seen : List (List Char)) (l : Line),
      l ∈ dedupSecond trim seen sl →
      sl.find? (fun x => dedupeKey trim x == dedupeKey trim l) = some l := by
  intro sl
  induction sl with
  | nil => intro seen l h; cases h
  | cons m ms ih =>
    intro seen l h
    simp only [dedupSecond] at h
    by_cases hk : dedupeKey trim m ∈ seen
    · rw [if_pos hk] at h
      have hne : ¬ (dedupeKey trim m == dedupeKey trim l) = true := by
        simp only [beq_iff_eq]
        intro he
        exact (dedupSecond_key_not_seen trim ms seen l h) (he ▸ hk)
      rw [@List.find?_cons_of_neg _ (fun x => dedupeKey trim x == dedupeKey trim l) m _ hne]
      exact ih seen l h
    · rw [if_neg hk] at h
      rcases List.mem_cons.mp h with rfl | h
      · rw [@List.find?_cons_of_pos _ (fun x => dedupeKey trim x == dedupeKey trim l) _ _
          (by simp)]
      · have hne : ¬ (dedupeKey trim m == dedupeKey trim l) = true := by
          simp only [beq_iff_eq]
          intro he
          have hni := dedupSecond_key_not_seen trim ms (dedupeKey trim m :: seen) l h
          exact hni (he ▸ List.mem_cons_self _ _)
        rw [@List.find?_cons_of_neg _ (fun x => dedupeKey trim x == dedupeKey trim l) m _ hne]
        exact ih (dedupeKey trim m :: seen) l h

theorem find_first_of_nodup (trim : Bool) :
    ∀ (fl : List Line), ((fl.map (dedupeKey trim)).Nodup) → ∀ l ∈ fl,
      fl.find? (fun x => dedupeKey trim x == dedupeKey trim l) = some l := by
  intro fl
  induction fl with
  | nil => intro _ l h; cases h
  | cons m ms ih =>
    intro hnd l hl
    simp only [List.map_cons, List.nodup_cons] at hnd
    rcases List.mem_cons.mp hl with rfl | hl
    · rw [@List.find?_cons_of_pos _ (fun x => dedupeKey trim x == dedupeKey trim l) _ _
        (by simp)]
    · have hne : ¬ (dedupeKey trim m == dedupeKey trim l) = true := by
        simp only [beq_iff_eq]
        intro he
        exact hnd.1 (he ▸ List.mem_map_of_mem _ hl)
      rw [@List.find?_cons_of_neg _ (fun x => dedupeKey trim x == dedupeKey trim l) m _ hne]
      exact ih hnd.2 l hl

theorem find?_append_left {α : Type} (p : α → Bool) (l₁ l₂ : List α) (a : α)
    (h : l₁.find? p = some a) : (l₁ ++ l₂).find? p = some a := by
  rw [List.find?_append, h]
  rfl

theorem find?_append_right {α : Type} (p : α → Bool) (l₁ l₂ : List α)
    (h : l₁.find? p = none) : (l₁ ++ l₂).find? p = l₂.find? p := by
  rw [List.find?_append, h]
  rfl

/-- C3 (amended): when both ordered sides are nonempty (so the dedup path
runs, rather than the verbatim empty-side passthrough) and the first-ordered
side's lines have pairwise distinct dedupe keys, an
`accept_both(deduplicate=true)` result is the `'\n'`-join of a line sequence
with no duplicate keys, in which every line is literally the first line with
its key in the chosen order.  The first side's own lines are never
deduplicated against each other by the code, hence the extra hypotheses. -/
theorem C3_dedup_first_occurrence (hunk : ConflictHunk) (options : AcceptBothOptions)
    (hd : options.deduplicate = true)
    (hfne : (acceptBothFirst hunk options).isEmpty = false)
    (hsne : (acceptBothSecond hunk options).isEmpty = false)
    (hnodup : ((rustLines (acceptBothFirst hunk options)).map
        (dedupeKey options.trim_whitespace)).Nodup) :
    (Resolution.accept_both hunk options).content =
      (if endsWithNL (acceptBothFirst hunk options)
          || endsWithNL (acceptBothSecond hunk options) then
        joinNL (dedupResultLines (acceptBothFirst hunk options)
          (acceptBothSecond hunk options) options.trim_whitespace) ++ ['\n']
      else
        joinNL (dedupResultLines (acceptBothFirst hunk options)
          (acceptBothSecond hunk options) options.trim_whitespace)) ∧
    ((dedupResultLines (acceptBothFirst hunk options) (acceptBothSecond hunk options)
        options.trim_whitespace).map (dedupeKey options.trim_whitespace)).Nodup ∧
    (∀ l ∈ dedupResultLines (acceptBothFirst hunk options) (acceptBothSecond hunk options)
        options.trim_whitespace,
      (rustLines (acceptBothFirst hunk options) ++
        rustLines (acceptBothSecond hunk options)).find?
          (fun x => dedupeKey options.trim_whitespace x ==
            dedupeKey options.trim_whitespace l) = some l) := by
  refine ⟨?_, ?_, ?_⟩
  · simp [Resolution.accept_both, hfne, hsne, hd, combine_with_dedup]
  · simp only [dedupResultLines, List.map_append]
    rw [List.nodup_append]
    refine ⟨hnodup, dedupSecond_nodup options.trim_whitespace _ _, ?_⟩
    intro k hk1 hk2
    obtain ⟨l', hl', hkey⟩ := List.mem_map.mp hk2
    have hni := dedupSecond_key_not_seen options.trim_whitespace _ _ l' hl'
    rw [hkey] at hni
    exact hni hk1
  · intro l hl
    simp only [dedupResultLines] at hl
    rcases List.mem_append.mp hl with hl | hl
    · exact find?_append_left _ _ _ _
        (find_first_of_nodup options.trim_whitespace _ hnodup l hl)
    · rw [find?_append_right]
      · exact dedupSecond_find options.trim_whitespace _ _ l hl
      · rw [List.find?_eq_none]
        intro x hx
        simp only [beq_iff_eq]
        intro he
        have hni := dedupSecond_key_not_seen options.trim_whitespace _ _ l hl
        rw [← he] at hni
        exact hni (List.mem_map_of_mem _ hx)

/-- A hunk whose first-ordered side repeats a line. -/
def c3hunk : ConflictHunk :=
  { id := 0
    left := { text := ("a\na").data }
    right := { text := ("b").data }
    base := none
    context := { before := [], after := [], start_line_left := 0, start_line_right := 0 }
    state := HunkState.Unresolved }

/-- A hunk with an empty first side and a repeating second side. -/
def c3hunk2 : ConflictHunk :=
  { id := 0
    left := { text := [] }
    right := { text := ("a\na").data }
    base := none
    context := { before := [], after := [], start_line_left := 0, start_line_right := 0 }
    state := HunkState.Unresolved }

/-- The dedup options used by the C3 theorems. -/
def c3opts : AcceptBothOptions :=
  { order := BothOrder.LeftThenRight, deduplicate := true, trim_whitespace := false }

/-- Counterexample to C3 as stated: with `deduplicate = true` the result
`"a\na\nb"` (left side `"a\na"`) repeats the key `"a"` — first-side
duplicates are all kept; likewise an empty left side returns the right side
verbatim, duplicates included. -/
theorem C3_counterexample :
    ((Resolution.accept_both c3hunk c3opts).content = ("a\na\nb").data ∧
      ¬ ((rustLines (Resolution.accept_both c3hunk c3opts).content).map
          (dedupeKey c3opts.trim_whitespace)).Nodup) ∧
    ((Resolution.accept_both c3hunk2 c3opts).content = ("a\na").data ∧
      ¬ ((rustLines (Resolution.accept_both c3hunk2 c3opts).content).map
          (dedupeKey c3opts.trim_whitespace)).Nodup) := by decide

/-- The hunk used by the C3 witness (`"y"` overlaps both sides). -/
def c3whunk : ConflictHunk :=
  { id := 0
    left := { text := ("x\ny\n").data }
    right := { text := ("y\nz\n").data }
    base := none
    context := { before := [], after := [], start_line_left := 0, start_line_right := 0 }
    state := HunkState.Unresolved }

/-- Witness for the amended C3: `"x\ny\n"` + `"y\nz\n"` dedups to
`"x\ny\nz\n"`; keys are distinct and the surviving `"z"` is the first line
with its key. -/
theorem C3_witness :
    (Resolution.accept_both c3whunk c3opts).content = ("x\ny\nz\n").data ∧
    ((dedupResultLines (acceptBothFirst c3whunk c3opts) (acceptBothSecond c3whunk c3opts)
        c3opts.trim_whitespace).map (dedupeKey c3opts.trim_whitespace)).Nodup ∧
    (rustLines (acceptBothFirst c3whunk c3opts) ++
      rustLines (acceptBothSecond c3whunk c3opts)).find?
        (fun x => dedupeKey c3opts.trim_whitespace x ==
          dedupeKey c3opts.trim_whitespace (("z").data)) = some (("z").data) := by
  have hc := C3_dedup_first_occurrence c3whunk c3opts (by decide) (by decide) (by decide)
    (by decide)
  refine ⟨?_, hc.2.1, hc.2.2 (("z").data) (by decide)⟩
  rw [hc.1]
  decide

end Weavr

namespace Weavr

/-! Section: Claim C6 — separator recognition -/

theorem startsWith_iff (p : List Char) : ∀ l : List Char,
    startsWith p l = true ↔ ∃ t, l = p ++ t := by
  induction p with
  | nil => intro l; simp [startsWith]
  | cons c cs ih =>
    intro l
    cases l with
    | nil => simp [startsWith]
    | cons d ds =>
      simp only [startsWith, Bool.and_eq_true, decide_eq_true_eq, ih, List.cons_append,
        List.cons.injEq]
      constructor
      · rintro ⟨rfl, t, rfl⟩
        exact ⟨t, rfl, rfl⟩
      · rintro ⟨t, rfl, rfl⟩
        exact ⟨rfl, t, rfl⟩

/-- C6: a line is recognized as a `Separator` marker if and only if it
begins with seven `'='` characters followed by nothing but whitespace; six
equals signs, or seven followed by a non-whitespace character, is ordinary
content (no marker at all). -/
theorem C6_separator_iff (line : Line) :
    (detect_marker line = some Marker.Separator ↔
      (startsWith (("=======").data) line = true ∧
        (line.drop 7).all Char.isWhitespace = true)) ∧
    detect_marker (("======").data) = none ∧
    detect_marker (("=======x").data) = none := by
  refine ⟨⟨?_, ?_⟩, by decide, by decide⟩
  · intro h
    unfold detect_marker at h
    split at h
    · exact absurd h (by simp)
    · split at h
      · exact absurd h (by simp)
      · split at h
        · rename_i hc
          rcases hc with hc | hc
          · subst hc
            exact ⟨by decide, by decide⟩
          · exact ⟨hc.1, hc.2⟩
        · split at h
          · exact absurd h (by simp)
          · exact absurd h (by simp)
  · rintro ⟨hs, hw⟩
    obtain ⟨t, rfl⟩ := (startsWith_iff _ _).mp hs
    unfold detect_marker
    rw [if_neg (by simp [startsWith]), if_neg (by simp [startsWith]),
      if_pos (Or.inr ⟨hs, hw⟩)]

/-- Witness for C6 at a separator line with a trailing tab and space. -/
theorem C6_witness :
    detect_marker (("=======\t ").data) = some Marker.Separator :=
  (C6_separator_iff (("=======\t ").data)).1.mpr ⟨by decide, by decide⟩

/-! Section: Claim C10 — validate is blind to base markers -/

/-- C10: in state `Applied`, when no `Resolved` hunk's content has a line
starting with `<<<<<<<`, `=======` or `>>>>>>>`, `validate` succeeds and
moves the session to `Validated` — the check says nothing about `|||||||`
lines — and `complete` then returns exactly the `generate_output` text, so
any base-marker lines in resolved content pass through to the final
output. -/
theorem C10_validate_ignores_base_markers (sess : MergeSession)
    (hstate : sess.state = MergeState.Applied)
    (hclean : ∀ h ∈ sess.hunks, ∀ line ∈ rustLines (resolvedContent h.state),
      startsWith (("<<<<<<<").data) line = false ∧
      startsWith (("=======").data) line = false ∧
      startsWith ((">>>>>>>").data) line = false) :
    sess.validate = (Except.ok (), { sess with state := MergeState.Validated }) ∧
    ∀ out, sess.generate_output = Except.ok out →
      ({ sess with state := MergeState.Validated } : MergeSession).complete.1
        = Except.ok { content := out
                      unresolved_hunks := []
                      warnings := []
                      summary := { total_hunks := sess.hunks.length
                                   resolved_hunks :=
                                     (sess.hunks.filter isResolvedHunk).length } } := by
  have hcount : sess.count_conflict_markers = 0 := by
    unfold MergeSession.count_conflict_markers
    rw [List.length_eq_zero, List.filter_eq_nil_iff]
    intro h hm
    cases hhs : h.state <;> simp only [Bool.not_eq_true]
    case Resolved r =>
      rw [List.any_eq_false]
      intro line hline
      have hp := hclean h hm line (by rw [hhs]; exact hline)
      simp [hp.1, hp.2.1, hp.2.2]
  constructor
  · unfold MergeSession.validate
    rw [if_neg (by simp [hstate]), if_neg (by simp [hcount])]
  · intro out hout
    unfold MergeSession.complete
    rw [if_neg (by simp)]
    have hsame : ({ sess with state := MergeState.Validated } : MergeSession).generate_output
        = Except.ok out := hout
    rw [hsame]

/-- The `Applied` session used by the C10 witness: the single hunk of
`c8base` resolved with content that still contains a diff3 base-marker
line. -/
def c10sess : MergeSession :=
  { input := { left := { path := "t.rs"
                         content := ("a\n<<<<<<< H\nl\n=======\nr\n>>>>>>> F\nb").data }
               right := { path := "t.rs", content := [] }
               base := none }
    hunks := [{ id := 0
                left := { text := ("l").data }
                right := { text := ("r").data }
                base := none
                context := { before := [("a").data], after := [("b").data]
                             start_line_left := 3, start_line_right := 5 }
                state := HunkState.Resolved
                  (Resolution.manual (("||||||| base\nkeep me").data)) }]
    segments := [Segment.Clean (("a").data), Segment.Conflict 0, Segment.Clean (("b").data)]
    state := MergeState.Applied
    resolutions := [(0, Resolution.manual (("||||||| base\nkeep me").data))] }

/-- Witness for C10: `validate` accepts a resolution whose content starts
with `|||||||`, and the completed output still contains that base-marker
line. -/
theorem C10_witness :
    c10sess.validate = (Except.ok (), { c10sess with state := MergeState.Validated }) ∧
    ({ c10sess with state := MergeState.Validated } : MergeSession).complete.1
      = Except.ok { content := ("a\n||||||| base\nkeep me\nb").data
                    unresolved_hunks := []
                    warnings := []
                    summary := { total_hunks := c10sess.hunks.length
                                 resolved_hunks :=
                                   (c10sess.hunks.filter isResolvedHunk).length } } ∧
    (rustLines (("a\n||||||| base\nkeep me\nb").data)).any
      (fun line => startsWith (("|||||||").data) line) = true := by
  have hc := C10_validate_ignores_base_markers c10sess (by decide) (by decide)
  exact ⟨hc.1, hc.2 (("a\n||||||| base\nkeep me\nb").data) (by decide), by decide⟩

end Weavr
